import Mathlib

/-!
# Verification of the Stream + Subtitle Catcher extension core

Shallow embedding, in Lean 4, of the pure core of the
`subtitle-capture-ext` browser extension:

* the request-to-media classifier of `src/service-worker.js`
  (classification chain of the `onResponseStarted` listener),
* the HLS master-playlist parser of `src/modules/hls-parser.js`
  (`parseCodec`, `parseAudioCodec`, `parseAudioGroups`,
  `parseHLSMasterPlaylistContent`, and the `#EXTINF` summation of
  `getMediaPlaylistDuration`),
* the command builders of `src/modules/commands.js`
  (`shellEscapeSingle`, `normalizeFilename`, `buildMpvHeaderOption`,
  `buildMpvCommand`, `buildFfmpegHeaders`, `getFfmpegLanguageCode`,
  `buildFfmpegCommand`),
* the storage limit logic of `src/modules/storage.js`
  (`StorageManager.addItem`) with `MAX_ITEMS_PER_TAB` from
  `src/modules/constants.js`.

Modelling conventions:

* JavaScript strings are Lean `String`; all string primitives used by the
  source (`split`, `trim`, `toLowerCase`, `join`, `includes`, regex
  matching) are re-implemented below on `List Char` so that every
  definition is executable and kernel-decidable.
* JavaScript numbers are modelled exactly: integers as `Nat`
  (`parseInt` on a digit run), fractional values as `ℚ` (`parseFloat`
  on a `[\d.]+` token), with `NaN` represented by `Option.none` and
  propagated where the source propagates it.  No claim below depends on
  binary floating-point rounding.
* JavaScript objects used as string-keyed records are modelled as
  association lists in insertion order (the iteration order of
  `Object.entries` for string keys).
* `null`/`undefined`/missing string fields are modelled as `""` when the
  source only ever tests them for truthiness, and as `Option` when the
  distinction matters.
-/

/-! ## JavaScript string primitives -/

/-- `text.includes(pat)` on character lists: `pat` occurs contiguously. -/
def listHasSeq (pat : List Char) : List Char → Bool
  | [] => pat.isEmpty
  | c :: t => pat.isPrefixOf (c :: t) || listHasSeq pat t

/-- JS `String.prototype.includes`. -/
def jsIncludes (s pat : String) : Bool :=
  listHasSeq pat.data s.data

/-- Split a character list at every occurrence of the separator `sep`
(JS `String.prototype.split` with a single-character separator:
adjacent separators produce empty fields). -/
def splitCharList (sep : Char) : List Char → List (List Char)
  | [] => [[]]
  | c :: t =>
    let r := splitCharList sep t
    if c = sep then [] :: r
    else match r with
      | [] => [[c]]
      | h :: t' => (c :: h) :: t'

/-- JS `s.split(sep)` for a one-character separator. -/
def jsSplit (sep : Char) (s : String) : List String :=
  (splitCharList sep s.data).map fun l => ⟨l⟩

/-- JS whitespace for `trim` (ASCII fragment; the source only ever trims
playlist lines, which are ASCII). -/
def jsIsSpace (c : Char) : Bool :=
  c = ' ' || c = '\t' || c = '\n' || c = '\r' || c = '\x0b' || c = '\x0c'

/-- JS `String.prototype.trim`. -/
def jsTrim (s : String) : String :=
  ⟨((s.data.dropWhile jsIsSpace).reverse.dropWhile jsIsSpace).reverse⟩

/-- JS `String.prototype.toLowerCase` (ASCII model). -/
def jsToLower (s : String) : String :=
  ⟨s.data.map Char.toLower⟩

/-- JS `String.prototype.toUpperCase` (ASCII model). -/
def jsToUpper (s : String) : String :=
  ⟨s.data.map Char.toUpper⟩

/-- JS `Array.prototype.join(sep)`. -/
def jsJoin (sep : String) : List String → String
  | [] => ""
  | [a] => a
  | a :: b :: t => a ++ sep ++ jsJoin sep (b :: t)

/-- JS `s.startsWith(pre)`. -/
def jsStartsWith (pre s : String) : Bool :=
  pre.data.isPrefixOf s.data

/-- The trimmed non-empty lines of a playlist text:
`content.split('\n').map(l => l.trim()).filter(l => l)`. -/
def jsLines (content : String) : List String :=
  ((jsSplit '\n' content).map jsTrim).filter (· ≠ "")

theorem listHasSeq_nil (l : List Char) : listHasSeq [] l = true := by
  cases l <;> simp [listHasSeq, List.isPrefixOf]

theorem listHasSeq_of_append (pat pre post : List Char) :
    listHasSeq pat (pre ++ pat ++ post) = true := by
  induction pre with
  | nil =>
    cases pat with
    | nil => exact listHasSeq_nil post
    | cons c t =>
      simp only [List.nil_append, listHasSeq, Bool.or_eq_true]
      exact Or.inl (List.isPrefixOf_iff_prefix.mpr ⟨post, by simp⟩)
  | cons c t ih =>
    cases pat with
    | nil => exact listHasSeq_nil _
    | cons p pt =>
      simp only [List.cons_append, listHasSeq, Bool.or_eq_true]
      exact Or.inr ih

/-! ## Regex fragment used by the source

The source only uses regexes of four shapes:
`MARKER=(C+)` for a character class `C`, `MARKER="([^"]+)"`,
`RESOLUTION=(\d+)x(\d+)`, and `/'/g` replacement.  JS `String.match`
returns the leftmost position at which the whole pattern succeeds, so
each scanner below walks the text left to right and, at each occurrence
of the literal marker, checks that a non-empty capture (plus its
required delimiter) follows; otherwise it keeps scanning one character
further, exactly like the regex engine's backtracking. -/

/-- Leftmost match of `marker` followed by a non-empty run of characters
satisfying `p`; returns the maximal run (regex `marker(p+)`). -/
def scanCapture (marker : List Char) (p : Char → Bool) : List Char → Option (List Char)
  | [] => none
  | c :: t =>
    match marker.isPrefixOf (c :: t) with
    | true =>
      let rest := (c :: t).drop marker.length
      let run := rest.takeWhile p
      if run.isEmpty then scanCapture marker p t else some run
    | false => scanCapture marker p t

/-- Leftmost match of `marker"..."` (regex `marker"([^"]+)"`): a
non-empty run of non-quote characters that must be terminated by a
closing quote. -/
def scanQuoted (marker : List Char) : List Char → Option (List Char)
  | [] => none
  | c :: t =>
    match marker.isPrefixOf (c :: t) with
    | true =>
      let rest := (c :: t).drop marker.length
      let run := rest.takeWhile (· ≠ '"')
      if run.isEmpty then scanQuoted marker t
      else match rest.drop run.length with
        | '"' :: _ => some run
        | _ => scanQuoted marker t
    | false => scanQuoted marker t

/-- Leftmost match of regex `RESOLUTION=(\d+)x(\d+)`-style patterns:
`marker`, digits, the literal `mid`, digits; returns both digit runs. -/
def scanPair (marker : List Char) (mid : Char) : List Char → Option (List Char × List Char)
  | [] => none
  | c :: t =>
    match marker.isPrefixOf (c :: t) with
    | true =>
      let rest := (c :: t).drop marker.length
      let run₁ := rest.takeWhile Char.isDigit
      if run₁.isEmpty then scanPair marker mid t
      else match rest.drop run₁.length with
        | m :: rest₂ =>
          if m = mid then
            let run₂ := rest₂.takeWhile Char.isDigit
            if run₂.isEmpty then scanPair marker mid t else some (run₁, run₂)
          else scanPair marker mid t
        | [] => scanPair marker mid t
    | false => scanPair marker mid t

/-- String-level wrapper for `scanCapture`. -/
def jsMatchCapture (marker : String) (p : Char → Bool) (s : String) : Option String :=
  (scanCapture marker.data p s.data).map fun l => ⟨l⟩

/-- String-level wrapper for `scanQuoted`. -/
def jsMatchQuoted (marker : String) (s : String) : Option String :=
  (scanQuoted marker.data s.data).map fun l => ⟨l⟩

/-! ## JavaScript number parsing -/

/-- Numeric value of a digit run (`parseInt(run, 10)`; the runs captured
by `(\d+)` are pure digits, so `parseInt` is exact on them). -/
def digitsToNat : List Char → Nat :=
  List.foldl (fun acc c => 10 * acc + (c.toNat - '0'.toNat)) 0

/-- JS `parseInt(s, 10)` on a string already known to be a non-empty
digit run. -/
def jsParseIntDigits (s : String) : Nat := digitsToNat s.data

/-- JS `parseFloat` on a token captured by `[\d.]+` (only digits and
dots): longest valid prefix `\d*(\.\d*)?` containing at least one
digit; `none` models `NaN`. -/
def jsParseFloat (s : String) : Option ℚ :=
  let intPart := s.data.takeWhile Char.isDigit
  let rest := s.data.drop intPart.length
  let frac :=
    match rest with
    | '.' :: r => r.takeWhile Char.isDigit
    | _ => []
  if intPart.isEmpty ∧ frac.isEmpty then none
  else some ((digitsToNat intPart : ℚ) +
    (digitsToNat frac : ℚ) / ((10 : ℚ) ^ frac.length))

/-! ## C1 — the request-to-media classifier (`src/service-worker.js`)

Constant tables from the top of `src/service-worker.js` (identical to
the exported constants of `src/modules/constants.js`).  JS `Set`s and
plain objects are modelled as lists in literal order. -/

def SUBTITLE_MIME_MAP : List (String × Option String) :=
  [("text/vtt", some "vtt"),
   ("text/webvtt", some "vtt"),
   ("application/x-subrip", some "srt"),
   ("text/x-ssa", some "ass"),
   ("text/x-ass", some "ass"),
   ("application/ttml+xml", some "ttml"),
   ("application/ttaf+xml", some "ttml"),
   ("text/ttml", some "ttml"),
   ("application/xml", none),
   ("text/xml", none),
   ("text/plain", none),
   ("application/octet-stream", none)]

def SUBTITLE_EXTENSIONS : List String :=
  ["vtt", "srt", "ass", "ssa", "sub", "ttml", "dfxp", "sbv", "stl", "lrc", "smi"]

def VIDEO_EXTENSIONS : List String :=
  ["mp4", "webm", "mkv", "avi", "mov", "flv", "wmv", "m4v", "mpg", "mpeg", "3gp", "ogv"]

def VIDEO_MIME_TYPES : List String :=
  ["video/mp4", "video/webm", "video/x-matroska", "video/avi", "video/quicktime",
   "video/x-flv", "video/x-ms-wmv", "video/3gpp", "video/ogg", "video/mpeg"]

def HLS_EXTENSIONS : List String := ["m3u8", "m3u"]

def HLS_MIME_TYPES : List String :=
  ["application/vnd.apple.mpegurl", "application/x-mpegurl"]

def DASH_EXTENSIONS : List String := ["mpd"]

def DASH_MIME_TYPES : List String :=
  ["application/dash+xml", "application/vnd.mpeg.dash.mpd"]

/-- Result of classifying one captured response (`kind`, `format`,
`mediaType` as assigned by the listener; `mediaType` stays unset for
subtitles). -/
structure Classification where
  kind : String
  format : String
  mediaType : Option String
  deriving DecidableEq, Repr

/-- `contentType.split('/')[1]`, with JS `undefined` collapsed to `""`
(both are falsy in the `ext || contentType.split('/')[1] || 'video'`
chain where this value is used). -/
def mimeSubtype (contentType : String) : String :=
  match (jsSplit '/' contentType).get? 1 with
  | some s => s
  | none => ""

/-- The classification chain of the `onResponseStarted` listener
(`src/service-worker.js` lines 325–364): content type and URL extension
are already extracted; `ext = ""` models `urlExtension`'s `null` (the
listener only tests `ext` for truthiness).  Returns `none` when the
response is ignored, including the final `if (!kind || !format) return`
guard. -/
def classify (contentType ext : String) : Option Classification :=
  let chain : Option Classification :=
    -- 1. Check for HLS streams
    if HLS_MIME_TYPES.contains contentType ∨ (ext ≠ "" ∧ HLS_EXTENSIONS.contains ext) then
      some ⟨"stream", "m3u8", some "hls"⟩
    -- 2. Check for DASH streams
    else if DASH_MIME_TYPES.contains contentType ∨ (ext ≠ "" ∧ DASH_EXTENSIONS.contains ext) then
      some ⟨"stream", "mpd", some "dash"⟩
    -- 3. Check for video files
    else if VIDEO_MIME_TYPES.contains contentType ∨ (ext ≠ "" ∧ VIDEO_EXTENSIONS.contains ext) then
      some ⟨"stream",
        (if ext ≠ "" then ext else if mimeSubtype contentType ≠ "" then mimeSubtype contentType else "video"),
        some "video"⟩
    -- 3.(sic) Check for subtitles via the MIME map
    else match SUBTITLE_MIME_MAP.lookup contentType with
    | some (some mapped) => some ⟨"subtitle", mapped, none⟩
    | some none =>
      if ext ≠ "" ∧ SUBTITLE_EXTENSIONS.contains ext then
        some ⟨"subtitle", ext, none⟩
      else none
    | none =>
      if ext ≠ "" ∧ SUBTITLE_EXTENSIONS.contains ext then
        some ⟨"subtitle", ext, none⟩
      else none
  -- final `if (!kind || !format) return;`
  match chain with
  | some c => if c.kind = "" ∨ c.format = "" then none else some c
  | none => none

/-- The classifier exactly as the claim states it: a first-match-wins
cascade HLS → DASH → video → subtitle → ignore, written from the spec's
§4.1 decision list (no trailing guard). -/
def classifySpec (contentType ext : String) : Option Classification :=
  if HLS_MIME_TYPES.contains contentType ∨ (ext ≠ "" ∧ HLS_EXTENSIONS.contains ext) then
    some ⟨"stream", "m3u8", some "hls"⟩
  else if DASH_MIME_TYPES.contains contentType ∨ (ext ≠ "" ∧ DASH_EXTENSIONS.contains ext) then
    some ⟨"stream", "mpd", some "dash"⟩
  else if VIDEO_MIME_TYPES.contains contentType ∨ (ext ≠ "" ∧ VIDEO_EXTENSIONS.contains ext) then
    some ⟨"stream",
      (if ext ≠ "" then ext else if mimeSubtype contentType ≠ "" then mimeSubtype contentType else "video"),
      some "video"⟩
  else match SUBTITLE_MIME_MAP.lookup contentType with
  | some (some mapped) => some ⟨"subtitle", mapped, none⟩
  | _ =>
    if ext ≠ "" ∧ SUBTITLE_EXTENSIONS.contains ext then
      some ⟨"subtitle", ext, none⟩
    else none

theorem subtitleMimeMap_lookup_ne_empty (ct m : String)
    (h : SUBTITLE_MIME_MAP.lookup ct = some (some m)) : m ≠ "" := by
  intro hc
  subst hc
  simp only [SUBTITLE_MIME_MAP, List.lookup] at h
  repeat' split at h
  all_goals exact absurd h (by decide)

/-- C1: classification proceeds in the fixed order HLS → DASH → video →
subtitle with first match winning, and otherwise ignores the response;
in particular content type `application/vnd.apple.mpegurl` with
extension `m3u8` is classified as an HLS stream. -/
theorem classify_first_match_order :
    (∀ contentType ext, classify contentType ext = classifySpec contentType ext) ∧
    classify "application/vnd.apple.mpegurl" "m3u8" =
      some ⟨"stream", "m3u8", some "hls"⟩ := by
  constructor
  · intro ct ext
    simp only [classify, classifySpec]
    by_cases h1 : HLS_MIME_TYPES.contains ct = true ∨ (ext ≠ "" ∧ HLS_EXTENSIONS.contains ext = true)
    · rw [if_pos h1, if_pos h1]
      rfl
    rw [if_neg h1, if_neg h1]
    by_cases h2 : DASH_MIME_TYPES.contains ct = true ∨ (ext ≠ "" ∧ DASH_EXTENSIONS.contains ext = true)
    · rw [if_pos h2, if_pos h2]
      rfl
    rw [if_neg h2, if_neg h2]
    by_cases h3 : VIDEO_MIME_TYPES.contains ct = true ∨ (ext ≠ "" ∧ VIDEO_EXTENSIONS.contains ext = true)
    · rw [if_pos h3, if_pos h3]
      have hfmt : (if ext ≠ "" then ext
          else if mimeSubtype ct ≠ "" then mimeSubtype ct else "video") ≠ "" := by
        by_cases he : ext = ""
        · rw [if_neg (not_not_intro he)]
          by_cases hm : mimeSubtype ct = ""
          · rw [if_neg (not_not_intro hm)]
            decide
          · rw [if_pos hm]
            exact hm
        · rw [if_pos he]
          exact he
      have hg : ¬("stream" = "" ∨ (if ext ≠ "" then ext
          else if mimeSubtype ct ≠ "" then mimeSubtype ct else "video") = "") := by
        rintro (hc | hc)
        · exact absurd hc (by decide)
        · exact hfmt hc
      dsimp only
      rw [if_neg hg]
    rw [if_neg h3, if_neg h3]
    cases hl : SUBTITLE_MIME_MAP.lookup ct with
    | some v =>
      cases v with
      | some m =>
        dsimp only
        have hg : ¬("subtitle" = "" ∨ m = "") := by
          rintro (hc | hc)
          · exact absurd hc (by decide)
          · exact subtitleMimeMap_lookup_ne_empty ct m hl hc
        rw [if_neg hg]
      | none =>
        dsimp only
        by_cases hs : ext ≠ "" ∧ SUBTITLE_EXTENSIONS.contains ext = true
        · rw [if_pos hs]
          have hg : ¬("subtitle" = "" ∨ ext = "") := by
            rintro (hc | hc)
            · exact absurd hc (by decide)
            · exact hs.1 hc
          dsimp only
          rw [if_neg hg]
        · rw [if_neg hs]
    | none =>
      dsimp only
      by_cases hs : ext ≠ "" ∧ SUBTITLE_EXTENSIONS.contains ext = true
      · rw [if_pos hs]
        have hg : ¬("subtitle" = "" ∨ ext = "") := by
          rintro (hc | hc)
          · exact absurd hc (by decide)
          · exact hs.1 hc
        dsimp only
        rw [if_neg hg]
      · rw [if_neg hs]
  · decide

/-! ## C5 — codec extraction (`src/modules/hls-parser.js`, `parseCodec`) -/

/-- The `for` loop of `parseCodec`: first token (in order) whose
substring test fires wins; within a token, video markers are tested
before audio markers. -/
def parseCodecLoop : List String → Option String
  | [] => none
  | codec :: rest =>
    if jsIncludes codec "hvc1" || jsIncludes codec "hev1" || jsIncludes codec "hevc" then some "H265"
    else if jsIncludes codec "avc1" || jsIncludes codec "avc3" then some "H264"
    else if jsIncludes codec "vp9" || jsIncludes codec "vp09" then some "VP9"
    else if jsIncludes codec "av01" then some "AV1"
    else if jsIncludes codec "mp4a" then some "AAC"
    else if jsIncludes codec "opus" then some "Opus"
    else if jsIncludes codec "mp3" || jsIncludes codec "mp4a.40.34" then some "MP3"
    else parseCodecLoop rest

/-- `parseCodec(codecsString)`: `none` input models JS `null`/`undefined`
and `""` is falsy (`if (!codecsString) return null`). -/
def parseCodec (codecsString : Option String) : Option String :=
  match codecsString with
  | none => none
  | some s =>
    if s = "" then none
    else parseCodecLoop ((jsSplit ',' s).map fun c => jsToLower (jsTrim c))

/-- The `for` loop of `parseAudioCodec`. -/
def parseAudioCodecLoop : List String → Option String
  | [] => none
  | codec :: rest =>
    if jsIncludes codec "mp4a" then some "AAC"
    else if jsIncludes codec "opus" then some "Opus"
    else if jsIncludes codec "mp3" || jsIncludes codec "mp4a.40.34" then some "MP3"
    else if jsIncludes codec "ac-3" || jsIncludes codec "ac3" then some "AC3"
    else if jsIncludes codec "ec-3" || jsIncludes codec "ec3" || jsIncludes codec "eac3" then some "EAC3"
    else if jsIncludes codec "flac" then some "FLAC"
    else if jsIncludes codec "dts" then some "DTS"
    else parseAudioCodecLoop rest

/-- `parseAudioCodec(codecsString)`. -/
def parseAudioCodec (codecsString : Option String) : Option String :=
  match codecsString with
  | none => none
  | some s =>
    if s = "" then none
    else parseAudioCodecLoop ((jsSplit ',' s).map fun c => jsToLower (jsTrim c))

/-- The verdict the claim assigns to a single CODECS token (same marker
precedence as one iteration of the source loop); used to state what
`parseCodec` computes. -/
def codecTokenVerdict (codec : String) : Option String :=
  if jsIncludes codec "hvc1" || jsIncludes codec "hev1" || jsIncludes codec "hevc" then some "H265"
  else if jsIncludes codec "avc1" || jsIncludes codec "avc3" then some "H264"
  else if jsIncludes codec "vp9" || jsIncludes codec "vp09" then some "VP9"
  else if jsIncludes codec "av01" then some "AV1"
  else if jsIncludes codec "mp4a" then some "AAC"
  else if jsIncludes codec "opus" then some "Opus"
  else if jsIncludes codec "mp3" || jsIncludes codec "mp4a.40.34" then some "MP3"
  else none

/-! ## HLS master-playlist parser (`src/modules/hls-parser.js`) -/

/-- `audioGroups.get(groupId).push(language)` with
`audioGroups.set(groupId, [])` on first sight (JS `Map` keyed by
group id, insertion order preserved). -/
def addToGroup : List (String × List String) → String → String → List (String × List String)
  | [], gid, lang => [(gid, [lang])]
  | (g, ls) :: t, gid, lang =>
    if g = gid then (g, ls ++ [lang]) :: t else (g, ls) :: addToGroup t gid lang

/-- `parseAudioGroups(lines)`: scan `#EXT-X-MEDIA:` lines with
`TYPE=AUDIO`, collecting `LANGUAGE=` (else `NAME=`, else `"unknown"`)
per `GROUP-ID`. -/
def parseAudioGroups (lines : List String) : List (String × List String) :=
  lines.foldl
    (fun audioGroups line =>
      if jsStartsWith "#EXT-X-MEDIA:" line then
        match jsMatchCapture "TYPE=" (fun c => !(c = ',' || jsIsSpace c)) line with
        | some ty =>
          if ty = "AUDIO" then
            match jsMatchQuoted "GROUP-ID=\"" line with
            | some groupId =>
              let language :=
                match jsMatchQuoted "LANGUAGE=\"" line with
                | some l => l
                | none =>
                  match jsMatchQuoted "NAME=\"" line with
                  | some n => n
                  | none => "unknown"
              addToGroup audioGroups groupId language
            | none => audioGroups
          else audioGroups
        | none => audioGroups
      else audioGroups)
    []

/-- Model of the WHATWG `new URL(relative, base)` host constructor on
the input fragment the extension exercises: an absolute input (a
URL-ish `scheme:` prefix) is returned as is, a relative input is
resolved against the last `/` segment of an absolute base, and
anything else throws (`none`).  Href normalisation performed by real
browsers is not modelled; no theorem below depends on the exact
resolved text, only on success/failure and on pass-through of absolute
URLs. -/
def jsNewURL (relative base : String) : Option String :=
  let looksAbsolute : String → Bool := fun s =>
    match s.data.takeWhile (· ≠ ':') with
    | [] => false
    | c :: rest =>
      (c :: rest).length < s.data.length &&
        c.isAlpha && rest.all (fun d => d.isAlpha || d.isDigit || d = '+' || d = '-' || d = '.')
  if looksAbsolute relative then some relative
  else if looksAbsolute base then
    some ⟨((base.data.reverse.dropWhile (· ≠ '/')).reverse) ++ relative.data⟩
  else none

/-- `resolveUrl(baseUrl, relativeUrl)` from `src/modules/utils.js`
(concatenated into the provided `storage.js` sources): catches the URL
constructor's failure and falls back to the relative URL unchanged. -/
def resolveUrl (baseUrl relativeUrl : String) : String :=
  match jsNewURL relativeUrl baseUrl with
  | some href => href
  | none => relativeUrl

/-- `formatBitrate(bps)` from `utils.js`, on exact naturals: `null`/`0`
is falsy; otherwise Mbps to one decimal, Kbps rounded, or raw bps.
JS computes the roundings on IEEE doubles; the half-up decimal rounding
used here agrees except on double-representation ties, which no claim
exercises. -/
def formatBitrate (bps : Option Nat) : Option String :=
  match bps with
  | none => none
  | some b =>
    if b = 0 then none
    else if b ≥ 1000000 then
      let n10 := (b + 50000) / 100000
      some (toString (n10 / 10) ++ "." ++ toString (n10 % 10) ++ "Mbps")
    else if b ≥ 1000 then
      some (toString ((b + 500) / 1000) ++ "Kbps")
    else
      some (toString b ++ "bps")

/-- `deriveVariantName(variant)`: join the truthy values of
`resolution`, `codec` (suppressed for plain audio codecs `AAC`/`Opus`)
and `bitrate` with `" · "`, defaulting to `"Default"`. -/
def deriveVariantName (resolution codec bitrate : Option String) : String :=
  let parts : List String :=
    (match resolution with
     | some r => if r ≠ "" then [r] else []
     | none => []) ++
    (match codec with
     | some c => if c ≠ "" ∧ c ≠ "AAC" ∧ c ≠ "Opus" then [c] else []
     | none => []) ++
    (match bitrate with
     | some b => if b ≠ "" then [b] else []
     | none => [])
  if parts = [] then "Default" else jsJoin " · " parts

/-- A processed variant record (`parseHLSMasterPlaylistContent`'s
`variant` object plus its derived `name`).  The pending record's
`VIDEO="..."` capture is read but never copied into the processed
object, exactly as in the source. -/
structure Variant where
  url : String
  bandwidth : Option Nat
  bitrate : Option String
  resolution : Option String
  codec : Option String
  audioCodec : Option String
  codecs : Option String
  frameRate : Option ℚ
  audioLanguages : List String
  name : String
  deriving DecidableEq, Repr

/-- The `currentVariant` record started on a `#EXT-X-STREAM-INF` line.
`frameRate` collapses JS `null` and `NaN` (a `FRAME-RATE` whose token
parses to `NaN`) into `none`; the field is only ever copied verbatim. -/
structure PendingVariant where
  bandwidth : Option Nat
  resolution : Option String
  codecs : Option String
  frameRate : Option ℚ
  audio : Option String
  video : Option String
  deriving DecidableEq, Repr

/-- Attribute extraction on one `#EXT-X-STREAM-INF` line (the six
regex matches of the source). -/
def readStreamInf (line : String) : PendingVariant where
  bandwidth := (jsMatchCapture "BANDWIDTH=" Char.isDigit line).map jsParseIntDigits
  resolution :=
    (scanPair "RESOLUTION=".data 'x' line.data).map fun p =>
      toString (digitsToNat p.2) ++ "p"
  codecs := jsMatchQuoted "CODECS=\"" line
  frameRate :=
    (jsMatchCapture "FRAME-RATE=" (fun c => c.isDigit || c = '.') line).bind jsParseFloat
  audio := jsMatchQuoted "AUDIO=\"" line
  video := jsMatchQuoted "VIDEO=\"" line

/-- Finalising a pending variant on its URL line. -/
def finalizeVariant (url : String) (audioGroups : List (String × List String))
    (cv : PendingVariant) (line : String) : Variant :=
  let vurl := resolveUrl url line
  let bitrate := formatBitrate cv.bandwidth
  let codec := parseCodec cv.codecs
  let audioLanguages :=
    match cv.audio with
    | some g =>
      if g ≠ "" then
        match audioGroups.lookup g with
        | some ls => ls
        | none => []
      else []
    | none => []
  { url := vurl
    bandwidth := cv.bandwidth
    bitrate := bitrate
    resolution := cv.resolution
    codec := codec
    audioCodec := parseAudioCodec cv.codecs
    codecs := cv.codecs
    frameRate := cv.frameRate
    audioLanguages := audioLanguages
    name := deriveVariantName cv.resolution codec bitrate }

/-- The sequential state machine over lines (`for` loop of
`parseHLSMasterPlaylistContent`): a `#EXT-X-STREAM-INF` line starts a
pending variant, the next non-comment non-empty line finalises it. -/
def variantScan (url : String) (audioGroups : List (String × List String)) :
    List String → Option PendingVariant → List Variant
  | [], _ => []
  | line :: rest, cur =>
    if jsStartsWith "#EXT-X-STREAM-INF" line then
      variantScan url audioGroups rest (some (readStreamInf line))
    else
      match cur with
      | some cv =>
        if ¬ jsStartsWith "#" line ∧ line ≠ "" then
          finalizeVariant url audioGroups cv line :: variantScan url audioGroups rest none
        else
          variantScan url audioGroups rest (some cv)
      | none => variantScan url audioGroups rest none

/-- The variants in their order of appearance in the playlist (the
`variants` array before the final `.sort`). -/
def rawVariants (url content : String) : List Variant :=
  let lines := jsLines content
  variantScan url (parseAudioGroups lines) lines none

/-- The sort key `(b.bandwidth || 0)` of the comparator
`(a, b) => (b.bandwidth || 0) - (a.bandwidth || 0)`. -/
def bwKey (v : Variant) : Nat := v.bandwidth.getD 0

/-- One step of a stable insertion sort for the descending comparator:
`x` is placed before the first element whose key is `≤` its own, so
equal keys keep their original relative order. -/
def insertVariant (x : Variant) : List Variant → List Variant
  | [] => [x]
  | y :: ys => if bwKey y ≤ bwKey x then x :: y :: ys else y :: insertVariant x ys

/-- `variants.sort((a, b) => (b.bandwidth || 0) - (a.bandwidth || 0))`.
`Array.prototype.sort` is stable (ES2019) and the comparator is
consistent, so its result is the unique stable descending reordering,
computed here by stable insertion sort. -/
def sortVariants (l : List Variant) : List Variant := l.foldr insertVariant []

/-- Result record of `parseHLSMasterPlaylistContent`; `error` is the
message attached by the `catch` branch (absent on both regular
returns). -/
structure ParseResult where
  isMasterPlaylist : Bool
  variants : List Variant
  error : Option String
  deriving DecidableEq, Repr

/-- `parseHLSMasterPlaylistContent(url, content)`.  The source wraps
this body in `try { … } catch` returning
`{isMasterPlaylist: false, variants: [], error: message}`; the only
host operation that can throw, the URL constructor, is already caught
inside `resolveUrl`, and every other operation in the body is total on
string inputs, so the catch branch is unreachable and the wrapper
equals the body. -/
def parseHLSMasterPlaylistContent (url content : String) : ParseResult :=
  let lines := jsLines content
  if ¬ lines.any (fun l => jsStartsWith "#EXT-X-STREAM-INF" l) then
    { isMasterPlaylist := false, variants := [], error := none }
  else
    { isMasterPlaylist := true
      variants := sortVariants (rawVariants url content)
      error := none }

/-! ## C6 — `#EXTINF` duration summation (`getMediaPlaylistDuration`) -/

/-- The summation loop of `getMediaPlaylistDuration`
(`src/modules/hls-parser.js` lines 175–189): running total over the
lines, with a `NaN` contribution (`none`) poisoning the total as in JS
float arithmetic. -/
def extinfScan : List String → Option ℚ → Option ℚ
  | [], acc => acc
  | line :: rest, acc =>
    if jsStartsWith "#EXTINF:" line then
      match jsMatchCapture "#EXTINF:" (fun c => c.isDigit || c = '.') line with
      | some tok =>
        extinfScan rest
          (match acc, jsParseFloat tok with
           | some a, some b => some (a + b)
           | _, _ => none)
      | none => extinfScan rest acc
    else extinfScan rest acc

/-- The pure duration computation on already-fetched text:
`totalDuration > 0 ? totalDuration : null` (a `NaN` total compares
false and also yields `null`). -/
def getMediaPlaylistDurationCore (content : String) : Option ℚ :=
  match extinfScan (jsLines content) (some 0) with
  | some t => if 0 < t then some t else none
  | none => none

/-- The per-line `#EXTINF` token of a playlist line as the claim
describes it: for a line starting with `#EXTINF:`, the first
floating-point number after the colon (`some (jsParseFloat tok)`,
where the inner `none` is an unparseable all-dots token); `none` when
the line is not an `#EXTINF:` line or carries no number. -/
def extinfToken (line : String) : Option (Option ℚ) :=
  if jsStartsWith "#EXTINF:" line then
    (jsMatchCapture "#EXTINF:" (fun c => c.isDigit || c = '.') line).map jsParseFloat
  else none

/-- The claim's description of the estimator: sum the parsed `#EXTINF`
durations of the trimmed non-empty lines (any unparseable segment makes
the duration unknown) and return the total only when positive. -/
def durationSpec (content : String) : Option ℚ :=
  let contribs := (jsLines content).filterMap extinfToken
  if none ∈ contribs then none
  else
    let total := (contribs.filterMap id).sum
    if 0 < total then some total else none

/-! ## Sorting lemmas for C2 -/

theorem insertVariant_perm (x : Variant) (l : List Variant) :
    (insertVariant x l).Perm (x :: l) := by
  induction l with
  | nil => exact List.Perm.refl _
  | cons y ys ih =>
    rw [insertVariant]
    by_cases hc : bwKey y ≤ bwKey x
    · rw [if_pos hc]
    · rw [if_neg hc]
      exact List.Perm.trans (List.Perm.cons y ih) (List.Perm.swap x y ys)

theorem insertVariant_pairwise (x : Variant) (l : List Variant)
    (h : l.Pairwise fun a b => bwKey b ≤ bwKey a) :
    (insertVariant x l).Pairwise fun a b => bwKey b ≤ bwKey a := by
  induction l with
  | nil => simp [insertVariant]
  | cons y ys ih =>
    rw [insertVariant]
    rcases List.pairwise_cons.mp h with ⟨hy, hys⟩
    by_cases hc : bwKey y ≤ bwKey x
    · rw [if_pos hc]
      refine List.Pairwise.cons ?_ h
      intro z hz
      rcases List.mem_cons.mp hz with rfl | hz'
      · exact hc
      · exact le_trans (hy z hz') hc
    · rw [if_neg hc]
      refine List.Pairwise.cons ?_ (ih hys)
      intro z hz
      have hz' := (insertVariant_perm x ys).mem_iff.mp hz
      rcases List.mem_cons.mp hz' with rfl | hz''
      · exact le_of_not_le hc
      · exact hy z hz''

theorem sortVariants_pairwise (l : List Variant) :
    (sortVariants l).Pairwise fun a b => bwKey b ≤ bwKey a := by
  induction l with
  | nil => simp [sortVariants]
  | cons x xs ih => exact insertVariant_pairwise x (sortVariants xs) ih

theorem sortVariants_perm (l : List Variant) : (sortVariants l).Perm l := by
  induction l with
  | nil => exact List.Perm.refl _
  | cons x xs ih =>
    exact List.Perm.trans (insertVariant_perm x (sortVariants xs)) (List.Perm.cons x ih)

theorem filter_insertVariant_eq (x : Variant) (l : List Variant) :
    (insertVariant x l).filter (fun v => decide (bwKey v = bwKey x)) =
      x :: l.filter (fun v => decide (bwKey v = bwKey x)) := by
  induction l with
  | nil => simp [insertVariant]
  | cons y ys ih =>
    rw [insertVariant]
    by_cases hc : bwKey y ≤ bwKey x
    · rw [if_pos hc]
      simp [List.filter_cons]
    · rw [if_neg hc]
      have hyx : ¬ (bwKey y = bwKey x) := fun he => hc (le_of_eq he)
      simp [List.filter_cons, hyx, ih]

theorem filter_insertVariant_ne (x : Variant) (l : List Variant) (k : Nat)
    (hk : bwKey x ≠ k) :
    (insertVariant x l).filter (fun v => decide (bwKey v = k)) =
      l.filter (fun v => decide (bwKey v = k)) := by
  induction l with
  | nil => simp [insertVariant, hk]
  | cons y ys ih =>
    rw [insertVariant]
    by_cases hc : bwKey y ≤ bwKey x
    · rw [if_pos hc]
      simp [List.filter_cons, hk]
    · rw [if_neg hc]
      simp [List.filter_cons, ih]

theorem sortVariants_stable (l : List Variant) (k : Nat) :
    (sortVariants l).filter (fun v => decide (bwKey v = k)) =
      l.filter (fun v => decide (bwKey v = k)) := by
  induction l with
  | nil => rfl
  | cons x xs ih =>
    have hs : sortVariants (x :: xs) = insertVariant x (sortVariants xs) := rfl
    rw [hs]
    by_cases hk : bwKey x = k
    · subst hk
      rw [filter_insertVariant_eq]
      simp [List.filter_cons, ih]
    · rw [filter_insertVariant_ne x _ k hk]
      simp [List.filter_cons, hk, ih]

theorem bwKey_eq_zero_iff (v : Variant) :
    bwKey v = 0 ↔ v.bandwidth = none ∨ v.bandwidth = some 0 := by
  cases h : v.bandwidth <;> simp [bwKey, h]

theorem variantScan_no_inf (url : String) (gs : List (String × List String)) :
    ∀ lines : List String,
      (∀ l ∈ lines, jsStartsWith "#EXT-X-STREAM-INF" l = false) →
      variantScan url gs lines none = [] := by
  intro lines
  induction lines with
  | nil => intro _; rfl
  | cons l ls ih =>
    intro h
    rw [variantScan]
    simp only [h l (List.mem_cons_self l ls), if_false]
    exact ih fun x hx => h x (List.mem_cons_of_mem l hx)

theorem parse_variants_eq_sort (url content : String) :
    (parseHLSMasterPlaylistContent url content).variants =
      sortVariants (rawVariants url content) := by
  simp only [parseHLSMasterPlaylistContent]
  by_cases h : ¬ ((jsLines content).any fun l => jsStartsWith "#EXT-X-STREAM-INF" l) = true
  · rw [if_pos h]
    have hraw : rawVariants url content = [] := by
      unfold rawVariants
      apply variantScan_no_inf
      intro l hl
      by_contra hne
      exact h (List.any_eq_true.mpr ⟨l, hl, Bool.not_eq_false _ ▸ hne⟩)
    rw [hraw]
    rfl
  · rw [if_neg h]

/-- C2 (amended): the variants returned by `parseHLSMasterPlaylistContent`
are a permutation of the variants in playlist order, sorted
non-increasing by effective bandwidth `(bandwidth || 0)`; ties in
effective bandwidth — including the tie between a null bandwidth and an
explicit bandwidth of 0 — keep playlist order (stable sort), so
null-bandwidth variants come after every variant with positive
bandwidth but may precede a zero-bandwidth one. -/
theorem parseMasterPlaylist_variant_ordering :
    ∀ url content,
      ((parseHLSMasterPlaylistContent url content).variants.Pairwise
        fun a b => bwKey b ≤ bwKey a) ∧
      ((parseHLSMasterPlaylistContent url content).variants.Perm
        (rawVariants url content)) ∧
      (∀ k, (parseHLSMasterPlaylistContent url content).variants.filter
          (fun v => decide (bwKey v = k)) =
        (rawVariants url content).filter (fun v => decide (bwKey v = k))) ∧
      ((parseHLSMasterPlaylistContent url content).variants.Pairwise
        fun a b => a.bandwidth = none → b.bandwidth = none ∨ b.bandwidth = some 0) := by
  intro url content
  have he := parse_variants_eq_sort url content
  refine ⟨?_, ?_, ?_, ?_⟩
  · rw [he]
    exact sortVariants_pairwise _
  · rw [he]
    exact sortVariants_perm _
  · intro k
    rw [he]
    exact sortVariants_stable _ k
  · rw [he]
    refine (sortVariants_pairwise _).imp ?_
    intro a b hba hnone
    have ha : bwKey a = 0 := (bwKey_eq_zero_iff a).mpr (Or.inl hnone)
    have hb : bwKey b = 0 := Nat.le_zero.mp (ha ▸ hba)
    exact (bwKey_eq_zero_iff b).mp hb

/-- C2 counterexample: a variant with no `BANDWIDTH` attribute
(bandwidth `null`) ties with a later `BANDWIDTH=0` variant under the
comparator `(b.bandwidth || 0) - (a.bandwidth || 0)` and, the sort
being stable, stays in front of it — so a non-null-bandwidth variant
follows a null-bandwidth one and the claim "variants whose bandwidth is
null or missing sort to the end" fails. -/
theorem parseMasterPlaylist_null_bandwidth_not_last :
    ((parseHLSMasterPlaylistContent ""
        "#EXT-X-STREAM-INF:CODECS=\"avc1\"\nA.m3u8\n#EXT-X-STREAM-INF:BANDWIDTH=0\nB.m3u8").variants.map
      fun v => v.bandwidth) = [none, some 0] := by decide

/-- C3 (amended): the parser is total — its `error` field is never
populated on string inputs, because the only throwing host operation,
the URL constructor, is caught inside `resolveUrl`, which falls back to
the unresolved relative URL instead of letting the error reach the
parser's catch. -/
theorem parseMasterPlaylist_error_free :
    (∀ url content, (parseHLSMasterPlaylistContent url content).error = none) ∧
    (∀ baseUrl relativeUrl, jsNewURL relativeUrl baseUrl = none →
      resolveUrl baseUrl relativeUrl = relativeUrl) := by
  constructor
  · intro url content
    simp only [parseHLSMasterPlaylistContent]
    by_cases h : ¬ ((jsLines content).any fun l => jsStartsWith "#EXT-X-STREAM-INF" l) = true
    · rw [if_pos h]
    · rw [if_neg h]
  · intro b r h
    unfold resolveUrl
    rw [h]

theorem parseMasterPlaylist_error_free_witness :
    jsNewURL "hi.m3u8" "" = none ∧ resolveUrl "" "hi.m3u8" = "hi.m3u8" :=
  ⟨by decide, parseMasterPlaylist_error_free.2 "" "hi.m3u8" (by decide)⟩

/-- C3 counterexample: on a playlist whose variant URL cannot be
resolved (`new URL("hi.m3u8", "")` throws), the parser does *not*
return `{isMasterPlaylist: false, variants: [], error: message}` as the
claim states: it returns a successful master-playlist result whose
variant keeps the unresolved relative URL. -/
theorem parseMasterPlaylist_url_failure_not_fallback :
    jsNewURL "hi.m3u8" "" = none ∧
    parseHLSMasterPlaylistContent "" "#EXT-X-STREAM-INF:BANDWIDTH=1\nhi.m3u8" =
      { isMasterPlaylist := true
        variants := [{ url := "hi.m3u8", bandwidth := some 1, bitrate := some "1bps",
                       resolution := none, codec := none, audioCodec := none,
                       codecs := none, frameRate := none, audioLanguages := [],
                       name := "1bps" }]
        error := none } := by decide

theorem parseCodecLoop_cons (c : String) (rest : List String) :
    parseCodecLoop (c :: rest) =
      match codecTokenVerdict c with
      | some n => some n
      | none => parseCodecLoop rest := by
  simp only [parseCodecLoop]
  unfold codecTokenVerdict
  split_ifs <;> rfl

theorem parseCodecLoop_eq_findSome? :
    ∀ toks : List String, parseCodecLoop toks = toks.findSome? codecTokenVerdict := by
  intro toks
  induction toks with
  | nil => rfl
  | cons c rest ih =>
    rw [parseCodecLoop_cons, List.findSome?_cons]
    cases codecTokenVerdict c with
    | some n => rfl
    | none => exact ih

/-- C5 (amended): `parseCodec` scans the comma-separated tokens in
order of appearance and returns the verdict of the *first* token that
matches any recognised marker, testing video markers before audio
markers only *within* that token; consequently an audio-type name can
be returned even when a video codec token appears later in the
string. -/
theorem parseCodec_first_matching_token :
    ∀ cs : String, parseCodec (some cs) =
      if cs = "" then none
      else ((jsSplit ',' cs).map fun c => jsToLower (jsTrim c)).findSome? codecTokenVerdict := by
  intro cs
  have hd : parseCodec (some cs) =
      if cs = "" then none
      else parseCodecLoop ((jsSplit ',' cs).map fun c => jsToLower (jsTrim c)) := rfl
  rw [hd]
  by_cases h : cs = ""
  · rw [if_pos h, if_pos h]
  · rw [if_neg h, if_neg h]
    exact parseCodecLoop_eq_findSome? _

/-- C5 counterexample: `CODECS="mp4a.40.2,avc1.64001f"` contains the
video token `avc1`, yet `parseCodec` returns the audio name `AAC`,
because the audio token `mp4a.40.2` comes first and the scan stops at
the first token matching any marker — refuting "returns a video codec
name whenever any video-type codec token is present anywhere in the
string". -/
theorem parseCodec_audio_shadows_video :
    parseCodec (some "mp4a.40.2,avc1.64001f") = some "AAC" ∧
    jsIncludes "avc1.64001f" "avc1" = true ∧ some "AAC" ≠ some "H264" := by decide

/-! ## C6 lemmas -/

theorem extinfScan_poisoned : ∀ ls : List String, extinfScan ls none = none := by
  intro ls
  induction ls with
  | nil => rfl
  | cons l rest ih =>
    rw [extinfScan]
    by_cases h : jsStartsWith "#EXTINF:" l = true
    · rw [if_pos h]
      cases hm : jsMatchCapture "#EXTINF:" (fun c => c.isDigit || c = '.') l with
      | some tok => exact ih
      | none => exact ih
    · rw [if_neg h]
      exact ih

theorem extinfScan_characterization :
    ∀ (ls : List String) (a : ℚ),
      extinfScan ls (some a) =
        if none ∈ ls.filterMap extinfToken then none
        else some (a + ((ls.filterMap extinfToken).filterMap id).sum) := by
  intro ls
  induction ls with
  | nil => intro a; simp [extinfScan]
  | cons l rest ih =>
    intro a
    rw [extinfScan]
    by_cases h : jsStartsWith "#EXTINF:" l = true
    · rw [if_pos h]
      cases hm : jsMatchCapture "#EXTINF:" (fun c => c.isDigit || c = '.') l with
      | some tok =>
        dsimp only
        cases hp : jsParseFloat tok with
        | some b =>
          have ht : extinfToken l = some (some b) := by
            simp [extinfToken, h, hm, hp]
          dsimp only
          rw [ih (a + b)]
          simp [List.filterMap_cons, ht, add_assoc]
        | none =>
          have ht : extinfToken l = some none := by
            simp [extinfToken, h, hm, hp]
          dsimp only
          rw [extinfScan_poisoned]
          simp [List.filterMap_cons, ht]
      | none =>
        have ht : extinfToken l = none := by
          simp [extinfToken, h, hm]
        dsimp only
        rw [ih a]
        simp [List.filterMap_cons, ht]
    · rw [if_neg h]
      have ht : extinfToken l = none := by
        simp [extinfToken, h]
      rw [ih a]
      simp [List.filterMap_cons, ht]

/-- C6: the duration estimator equals the claim's description — sum the
first floating-point number after the colon of every trimmed non-empty
`#EXTINF:` line (an unparseable number poisons the total, as JS `NaN`
does) and return the total exactly when it is positive, else `null`;
in particular three `#EXTINF:10.000,` lines yield `30`. -/
theorem estimateDuration_sums_extinf :
    (∀ content, getMediaPlaylistDurationCore content = durationSpec content) ∧
    getMediaPlaylistDurationCore "#EXTINF:10.000,\n#EXTINF:10.000,\n#EXTINF:10.000," =
      some 30 := by
  have hgen : ∀ content, getMediaPlaylistDurationCore content = durationSpec content := by
    intro content
    unfold getMediaPlaylistDurationCore durationSpec
    rw [extinfScan_characterization]
    by_cases h : none ∈ (jsLines content).filterMap extinfToken
    · simp [h]
    · simp [h]
  refine ⟨hgen, ?_⟩
  rw [hgen]
  have hp0 : jsParseFloat "10.000" =
      some ((digitsToNat ['1', '0'] : ℚ) +
        (digitsToNat ['0', '0', '0'] : ℚ) / (10 : ℚ) ^ 3) := rfl
  have d1 : digitsToNat ['1', '0'] = 10 := by decide
  have d2 : digitsToNat ['0', '0', '0'] = 0 := by decide
  have hp : jsParseFloat "10.000" = some 10 := by
    rw [hp0, d1, d2]
    norm_num
  have hl : jsLines "#EXTINF:10.000,\n#EXTINF:10.000,\n#EXTINF:10.000," =
      ["#EXTINF:10.000,", "#EXTINF:10.000,", "#EXTINF:10.000,"] := by decide
  have hs : jsStartsWith "#EXTINF:" "#EXTINF:10.000," = true := by decide
  have hm : jsMatchCapture "#EXTINF:" (fun c => c.isDigit || c = '.') "#EXTINF:10.000," =
      some "10.000" := by decide
  have ht : extinfToken "#EXTINF:10.000," = some (some 10) := by
    simp [extinfToken, hs, hm, hp]
  have hcontrib :
      (jsLines "#EXTINF:10.000,\n#EXTINF:10.000,\n#EXTINF:10.000,").filterMap extinfToken =
        [some 10, some 10, some 10] := by
    rw [hl]
    simp [List.filterMap_cons, ht]
  unfold durationSpec
  rw [hcontrib]
  norm_num [List.filterMap_cons, List.sum_cons, List.sum_nil]
  intro hx
  exact Option.noConfusion hx

/-! ## Command builders (`src/modules/commands.js`) -/

/-- Character-level form of `value.replace(/'/g, "'\\''")`: the pattern
is the single character `'`, so global regex replacement is a per-
character map. -/
def escSingleChars : List Char → List Char
  | [] => []
  | c :: t =>
    if c = '\'' then '\'' :: '\\' :: '\'' :: '\'' :: escSingleChars t
    else c :: escSingleChars t

/-- `shellEscapeSingle(value)`. -/
def shellEscapeSingle (value : String) : String :=
  ⟨escSingleChars value.data⟩

/-- The invalid-filename character class `[/\\:*?"<>|]`. -/
def isInvalidFilenameChar (c : Char) : Bool :=
  c = '/' || c = '\\' || c = ':' || c = '*' || c = '?' || c = '"' || c = '<' || c = '>' || c = '|'

/-- `replace(/\s+/g, ' ')`: collapse every whitespace run to one
space.  `prevSpace` tracks whether the previous character belonged to a
run already replaced. -/
def collapseSpacesAux : Bool → List Char → List Char
  | _, [] => []
  | prevSpace, c :: t =>
    if jsIsSpace c then
      if prevSpace then collapseSpacesAux true t
      else ' ' :: collapseSpacesAux true t
    else c :: collapseSpacesAux false t

/-- `normalizeFilename(title)`: `none` models a missing/`null` title
(falsy like `""`). -/
def normalizeFilename (title : Option String) : String :=
  match title with
  | none => "output"
  | some t =>
    if t = "" ∨ jsTrim t = "" then "output"
    else
      let s1 : List Char := t.data.map fun c => if isInvalidFilenameChar c then '_' else c
      let s2 := collapseSpacesAux false s1
      let s3 := jsTrim ⟨s2⟩
      let s4 : List Char :=
        match s3.data.getLast? with
        | some '.' => s3.data.dropLast
        | _ => s3.data
      ⟨s4.take 100⟩

/-- A stream item for the command builders (`url` plus request
headers in insertion order). -/
structure StreamItem where
  url : String
  headers : List (String × String)
  deriving DecidableEq, Repr

/-- A subtitle item; `""` models each absent field. -/
structure SubtitleItem where
  url : String
  languageCode : String
  langCode : String
  languageName : String
  langName : String
  deriving DecidableEq, Repr

/-- JS property lookup `headers[k]` on an insertion-ordered object. -/
def jsLookup (headers : List (String × String)) (k : String) : Option String :=
  (headers.find? fun kv => kv.1 == k).map (·.2)

/-- `headers['User-Agent'] || headers['user-agent']`, then the
truthiness test of `userAgent ? … : ''` — only these two exact
spellings are consulted. -/
def mpvUserAgent (headers : List (String × String)) : Option String :=
  match jsLookup headers "User-Agent" with
  | some v =>
    if v ≠ "" then some v
    else
      match jsLookup headers "user-agent" with
      | some w => if w ≠ "" then some w else none
      | none => none
  | none =>
    match jsLookup headers "user-agent" with
    | some w => if w ≠ "" then some w else none
    | none => none

/-- `{...headers}` followed by `delete` of both exact `User-Agent`
spellings. -/
def mpvOtherHeaders (headers : List (String × String)) : List (String × String) :=
  headers.filter fun kv => !(kv.1 == "User-Agent" || kv.1 == "user-agent")

/-- `buildMpvHeaderOption(headers)` from `src/modules/commands.js`:
one `--http-header-fields=` flag whose value is a comma-separated list
of single-quoted `Key: Value` pairs. -/
def buildMpvHeaderOption (headers : List (String × String)) : String :=
  if headers = [] then ""
  else
    "--http-header-fields=" ++
      jsJoin ","
        (headers.map fun kv =>
          "'" ++ shellEscapeSingle kv.1 ++ ": " ++ shellEscapeSingle kv.2 ++ "'")

/-- The `parts` array of `buildMpvCommand` (before
`.filter(Boolean).join('')`). -/
def mpvParts (item : StreamItem) (subtitleItems : List SubtitleItem) : List String :=
  let headers := item.headers
  let userAgent := mpvUserAgent headers
  let headerOpt := buildMpvHeaderOption (mpvOtherHeaders headers)
  let userAgentOpt :=
    match userAgent with
    | some ua => "  --user-agent='" ++ shellEscapeSingle ua ++ "' \\\n"
    | none => ""
  let subOpts :=
    jsJoin ""
      ((subtitleItems.filter fun s => s.url ≠ "").map fun s =>
        "  --sub-file='" ++ shellEscapeSingle s.url ++ "' \\\n")
  ["mpv \\\n",
   "  --force-window=immediate \\\n",
   "  --sub-auto=fuzzy \\\n",
   "  --demuxer-lavf-o=allowed_extensions=ALL \\\n",
   subOpts,
   userAgentOpt,
   (if headerOpt ≠ "" then "  " ++ headerOpt ++ " \\\n" else ""),
   "  '" ++ shellEscapeSingle item.url ++ "' \\\n",
   "  --msg-level=ffmpeg=trace,demuxer=trace,network=trace \\\n",
   "  --log-file=mpv-trace.log"]

/-- `buildMpvCommand(streamItem, subtitleItems)` from
`src/modules/commands.js` (`none` models a missing stream item, as in
`streamItem?.url`). -/
def buildMpvCommand (streamItem : Option StreamItem)
    (subtitleItems : List SubtitleItem) : String :=
  match streamItem with
  | none => ""
  | some item =>
    if item.url = "" then ""
    else jsJoin "" ((mpvParts item subtitleItems).filter (· ≠ ""))

/-- `buildFfmpegHeaders(headers)`: CRLF-joined `Key: Value` pairs with
a trailing CRLF, single-quoted behind `-headers`. -/
def buildFfmpegHeaders (headers : List (String × String)) : String :=
  if headers = [] then ""
  else
    "-headers '" ++
      shellEscapeSingle (jsJoin "\r\n" (headers.map fun kv => kv.1 ++ ": " ++ kv.2) ++ "\r\n") ++
      "'"

/-- `LANGUAGE_CODE_MAP` (ISO 639-1/locale → ISO 639-2). -/
def LANGUAGE_CODE_MAP : List (String × String) :=
  [("en", "eng"), ("es", "spa"), ("fr", "fre"), ("de", "ger"), ("it", "ita"),
   ("pt", "por"), ("ru", "rus"), ("ja", "jpn"), ("ko", "kor"), ("zh", "chi"),
   ("ar", "ara"), ("hi", "hin"), ("tr", "tur"), ("pl", "pol"), ("nl", "dut"),
   ("sv", "swe"), ("da", "dan"), ("no", "nor"), ("fi", "fin"), ("el", "gre"),
   ("he", "heb"), ("th", "tha"), ("vi", "vie"), ("id", "ind"), ("ms", "may"),
   ("cs", "cze"), ("sk", "slo"), ("hu", "hun"), ("ro", "rum"), ("bg", "bul"),
   ("uk", "ukr"), ("hr", "hrv"), ("sr", "srp"), ("sl", "slv"), ("et", "est"),
   ("lv", "lav"), ("lt", "lit"), ("fa", "per"), ("ur", "urd"), ("bn", "ben"),
   ("ta", "tam"), ("te", "tel"), ("ml", "mal"), ("kn", "kan"), ("mr", "mar"),
   ("gu", "guj"), ("pa", "pan"), ("sw", "swa"), ("af", "afr"), ("ca", "cat"),
   ("eu", "eus"), ("gl", "glg"), ("hy", "hye"), ("ka", "kat"), ("mn", "mon"),
   ("ne", "nep"), ("si", "sin"), ("km", "khm"), ("lo", "lao"), ("my", "mya"),
   ("am", "amh"), ("zu", "zul"), ("xh", "xho"), ("yo", "yor"), ("ig", "ibo"),
   ("ha", "hau"), ("tl", "tgl"), ("jv", "jav"), ("su", "sun"), ("mg", "mlg"),
   ("nb", "nob"), ("nn", "nno"), ("zh-cn", "chi"), ("zh-tw", "chi"),
   ("pt-br", "por"), ("pt-pt", "por"), ("es-419", "spa"), ("en-gb", "eng"),
   ("en-us", "eng")]

/-- `getFfmpegLanguageCode(langCode)`: full tag first, then the part
before `-`, else the lowercased input unchanged; `none` only for a
falsy input. -/
def getFfmpegLanguageCode (langCode : String) : Option String :=
  if langCode = "" then none
  else
    let normalized := jsToLower langCode
    match LANGUAGE_CODE_MAP.lookup normalized with
    | some v => some v
    | none =>
      match LANGUAGE_CODE_MAP.lookup
          (match jsSplit '-' normalized with
           | [] => ""
           | h :: _ => h) with
      | some v => some v
      | none => some normalized

/-- The per-subtitle metadata flags of `buildFfmpegCommand`
(`language=` when a code is present, `title=` from the language name or
the uppercased code). -/
def ffmpegSubtitleMetadata (index : Nat) (sub : SubtitleItem) : List String :=
  let langCode := if sub.languageCode ≠ "" then sub.languageCode else sub.langCode
  let langName := if sub.languageName ≠ "" then sub.languageName else sub.langName
  (if langCode ≠ "" then
    match getFfmpegLanguageCode langCode with
    | some code => ["-metadata:s:s:" ++ toString index ++ " language=" ++ shellEscapeSingle code]
    | none => []
  else []) ++
  (if langName ≠ "" then
    ["-metadata:s:s:" ++ toString index ++ " title='" ++ shellEscapeSingle langName ++ "'"]
  else if langCode ≠ "" then
    match getFfmpegLanguageCode langCode with
    | some code =>
      ["-metadata:s:s:" ++ toString index ++ " title='" ++ shellEscapeSingle (jsToUpper code) ++ "'"]
    | none => []
  else [])

/-- The `parts` array of `buildFfmpegCommand` (before
`.filter(Boolean).join(' ')`). -/
def ffmpegParts (item : StreamItem) (subtitleItems : List SubtitleItem)
    (outputFormat : String) (outputFilename : Option String) : List String :=
  let format := if outputFormat = "mkv" then "mkv" else "mp4"
  let baseFilename :=
    let n := normalizeFilename outputFilename
    if n ≠ "" then n else "output"
  let finalFilename := baseFilename ++ "." ++ format
  let headerOpt := buildFfmpegHeaders item.headers
  let validSubtitles := subtitleItems.filter fun s => s.url ≠ ""
  ["ffmpeg", "-loglevel error", "-stats"] ++
  (if headerOpt ≠ "" then [headerOpt] else []) ++
  ["-i '" ++ shellEscapeSingle item.url ++ "'"] ++
  (validSubtitles.map fun sub => "-i '" ++ shellEscapeSingle sub.url ++ "'") ++
  (if format = "mkv" then
    ["-map 0:v", "-map 0:a"] ++
      ((List.range validSubtitles.length).map fun i => "-map " ++ toString (i + 1))
  else
    ["-map 0"] ++
      ((List.range validSubtitles.length).map fun i => "-map " ++ toString (i + 1))) ++
  ["-c copy"] ++
  (if validSubtitles.length > 0 then
    if format = "mkv" then ["-c:s ass"] else ["-c:s mov_text"]
  else []) ++
  (validSubtitles.enum.map fun p => ffmpegSubtitleMetadata p.1 p.2).flatten ++
  ["'" ++ shellEscapeSingle finalFilename ++ "'"]

/-- `buildFfmpegCommand(streamItem, subtitleItems, outputFormat,
outputFilename)` from `src/modules/commands.js`. -/
def buildFfmpegCommand (streamItem : Option StreamItem)
    (subtitleItems : List SubtitleItem) (outputFormat : String)
    (outputFilename : Option String) : String :=
  match streamItem with
  | none => ""
  | some item =>
    if item.url = "" then ""
    else jsJoin " " ((ffmpegParts item subtitleItems outputFormat outputFilename).filter (· ≠ ""))

/-- The stream item of the worked ffmpeg example: URL only, no headers. -/
def c7Item : StreamItem := ⟨"https://x/s.m3u8", []⟩

/-- The subtitle list of the worked ffmpeg example: one `en` subtitle. -/
def c7Subs : List SubtitleItem := [⟨"https://x/sub.vtt", "en", "", "", ""⟩]

/-! ## C10 — storage capacity cap (`src/modules/storage.js`,
`src/modules/constants.js`) -/

/-- `MAX_ITEMS_PER_TAB` from `src/modules/constants.js`. -/
def MAX_ITEMS_PER_TAB : Nat := 50

/-- A stored capture item (the fields `addItem` destructures). -/
structure StoredItem where
  requestId : String
  url : String
  kind : String
  deriving DecidableEq, Repr

/-- `items[requestId] = item` on a string-keyed JS object in insertion
order: replace the existing binding or append a new one. -/
def jsObjSet (items : List (String × StoredItem)) (key : String)
    (item : StoredItem) : List (String × StoredItem) :=
  match items with
  | [] => [(key, item)]
  | (k, v) :: t => if k = key then (k, item) :: t else (k, v) :: jsObjSet t key item

/-- The queued body of `StorageManager.addItem` (storage.js lines
95–110) as a state transition on the stored per-(tab, kind) object:
duplicate-URL check first, then the `MAX_ITEMS_PER_TAB` cap, else
insert; returns the new stored object and the promise result (`none`
models the `null` returned on duplicate or on a full collection). -/
def addItemStep (items : List (String × StoredItem)) (item : StoredItem) :
    List (String × StoredItem) × Option (List (String × StoredItem)) :=
  if item.url ≠ "" ∧ items.any (fun e => e.2.url == item.url) then
    (items, none)
  else if MAX_ITEMS_PER_TAB ≤ items.length then
    (items, none)
  else
    let items' := jsObjSet items item.requestId item
    (items', some items')

theorem jsObjSet_length_le (items : List (String × StoredItem)) (k : String)
    (v : StoredItem) : (jsObjSet items k v).length ≤ items.length + 1 := by
  induction items with
  | nil => simp [jsObjSet]
  | cons p t ih =>
    obtain ⟨k', v'⟩ := p
    rw [jsObjSet]
    split_ifs <;> simp_all

/-- C10: the per-(tab, kind) capacity cap is `MAX_ITEMS_PER_TAB = 50`:
an `addItem` against a collection already holding 50 (or more) items is
a no-op returning `null`, whatever the item's URL (dedup or not), and
`addItem` never grows a collection beyond 50 items. -/
theorem addItem_capacity_cap :
    MAX_ITEMS_PER_TAB = 50 ∧
    (∀ items item, MAX_ITEMS_PER_TAB ≤ items.length →
      addItemStep items item = (items, none)) ∧
    (∀ items item, items.length ≤ MAX_ITEMS_PER_TAB →
      (addItemStep items item).1.length ≤ MAX_ITEMS_PER_TAB) := by
  refine ⟨rfl, ?_, ?_⟩
  · intro items item h
    unfold addItemStep
    by_cases hd : item.url ≠ "" ∧ items.any (fun e => e.2.url == item.url) = true
    · rw [if_pos hd]
    · rw [if_neg hd, if_pos h]
  · intro items item h
    unfold addItemStep
    by_cases hd : item.url ≠ "" ∧ items.any (fun e => e.2.url == item.url) = true
    · rw [if_pos hd]
      exact h
    · rw [if_neg hd]
      by_cases hl : MAX_ITEMS_PER_TAB ≤ items.length
      · rw [if_pos hl]
        exact h
      · rw [if_neg hl]
        have hle := jsObjSet_length_le items item.requestId item
        simp only [MAX_ITEMS_PER_TAB] at *
        omega

/-- Fifty stored items with distinct request ids, used to exercise a
collection at the cap. -/
def fullCollection : List (String × StoredItem) :=
  (List.range 50).map fun i =>
    (⟨List.replicate i 'a'⟩, ⟨⟨List.replicate i 'a'⟩, "https://s/" ++ ⟨List.replicate i 'a'⟩, "stream"⟩)

theorem addItem_capacity_cap_witness :
    MAX_ITEMS_PER_TAB ≤ fullCollection.length ∧
    addItemStep fullCollection ⟨"r51", "https://fresh.example/v.m3u8", "stream"⟩ =
      (fullCollection, none) :=
  ⟨by decide,
   addItem_capacity_cap.2.1 fullCollection
     ⟨"r51", "https://fresh.example/v.m3u8", "stream"⟩ (by decide)⟩

/-! ## C8 — POSIX shell tokenizer model -/

/-- Quoting state of a POSIX shell word scanner. -/
inductive ShellMode where
  | unquoted
  | squote
  | dquote
  deriving DecidableEq, Repr

/-- A POSIX-compliant tokenizer for a single shell word spanning the
whole input (modelled from POSIX.1 §2.2 quoting): single quotes make
everything literal up to the next single quote; an unquoted backslash
escapes the next character; inside double quotes a backslash escapes
only `$`, `` ` ``, `"`, `\`; an unquoted blank would end the word and
unterminated quotes or a trailing backslash fail (`none`). -/
def posixScan : ShellMode → List Char → Option (List Char)
  | .unquoted, [] => some []
  | .squote, [] => none
  | .dquote, [] => none
  | .squote, c :: cs =>
    if c = '\'' then posixScan .unquoted cs
    else (posixScan .squote cs).map (c :: ·)
  | .dquote, c :: cs =>
    if c = '"' then posixScan .unquoted cs
    else if c = '\\' then
      match cs with
      | [] => none
      | d :: cs' =>
        if d = '$' ∨ d = '`' ∨ d = '"' ∨ d = '\\' then (posixScan .dquote cs').map (d :: ·)
        else (posixScan .dquote cs').map (fun r => c :: d :: r)
    else (posixScan .dquote cs).map (c :: ·)
  | .unquoted, c :: cs =>
    if c = '\'' then posixScan .squote cs
    else if c = '"' then posixScan .dquote cs
    else if c = '\\' then
      match cs with
      | [] => none
      | d :: cs' => (posixScan .unquoted cs').map (d :: ·)
    else if jsIsSpace c then none
    else (posixScan .unquoted cs).map (c :: ·)

theorem posixScan_squote_escaped (l : List Char) :
    posixScan .squote (escSingleChars l ++ ['\'']) = some l := by
  induction l with
  | nil => rfl
  | cons c t ih =>
    by_cases hc : c = '\''
    · subst hc
      simp [escSingleChars, posixScan, ih]
      rw [posixScan.eq_def]
      simp only [if_pos]
      exact ih
    · simp [escSingleChars, hc, posixScan, ih]

/-- C8: round-trip escaping — for every string, the single-quoted token
the builders emit (`'` ++ `shellEscapeSingle value` ++ `'`, with each
inner quote escaped by the POSIX idiom `'\''`) is read back by a
POSIX-compliant shell tokenizer as exactly the original string. -/
theorem shellEscapeSingle_roundtrip :
    ∀ value : String,
      posixScan .unquoted ("'" ++ shellEscapeSingle value ++ "'").data = some value.data := by
  intro v
  have hd : ("'" ++ shellEscapeSingle v ++ "'").data =
      '\'' :: (escSingleChars v.data ++ ['\'']) := by
    simp [String.data_append, shellEscapeSingle]
  rw [hd, posixScan.eq_def]
  simp only [if_pos]
  exact posixScan_squote_escaped v.data

/-! ## C9 and C4 lemmas -/

theorem jsJoin_cons_ne_empty (sep a : String) (rest : List String) (ha : a ≠ "") :
    jsJoin sep (a :: rest) ≠ "" := by
  cases rest with
  | nil => simpa [jsJoin] using ha
  | cons b t =>
    intro h
    apply ha
    have hd := congrArg String.data h
    simp only [jsJoin, String.data_append, List.append_assoc] at hd
    have h1 : a.data = [] := (List.append_eq_nil.mp hd).1
    exact String.ext (by simp [h1])

/-- C9: both builders return the empty string exactly when the stream
item is missing or its `url` is empty, for every choice of the
remaining arguments; as total functions over their whole input domain
they raise no exception. -/
theorem builders_empty_iff_no_url :
    ∀ (streamItem : Option StreamItem) (subs : List SubtitleItem)
      (outputFormat : String) (outputFilename : Option String),
      (buildMpvCommand streamItem subs = "" ↔
        streamItem.elim "" StreamItem.url = "") ∧
      (buildFfmpegCommand streamItem subs outputFormat outputFilename = "" ↔
        streamItem.elim "" StreamItem.url = "") := by
  intro si subs fmt name
  cases si with
  | none => simp [buildMpvCommand, buildFfmpegCommand, Option.elim]
  | some it =>
    simp only [Option.elim]
    by_cases hu : it.url = ""
    · simp [buildMpvCommand, buildFfmpegCommand, hu]
    · have hm : buildMpvCommand (some it) subs ≠ "" := by
        have hb : buildMpvCommand (some it) subs =
            jsJoin "" ((mpvParts it subs).filter (· ≠ "")) := by
          simp [buildMpvCommand, hu]
        rw [hb]
        have hp : mpvParts it subs = "mpv \\\n" :: (mpvParts it subs).tail := rfl
        rw [hp, List.filter_cons_of_pos (by decide)]
        exact jsJoin_cons_ne_empty _ _ _ (by decide)
      have hf : buildFfmpegCommand (some it) subs fmt name ≠ "" := by
        have hb : buildFfmpegCommand (some it) subs fmt name =
            jsJoin " " ((ffmpegParts it subs fmt name).filter (· ≠ "")) := by
          simp [buildFfmpegCommand, hu]
        rw [hb]
        have hp : ffmpegParts it subs fmt name =
            "ffmpeg" :: (ffmpegParts it subs fmt name).tail := rfl
        rw [hp, List.filter_cons_of_pos (by decide)]
        exact jsJoin_cons_ne_empty _ _ _ (by decide)
      simp [hm, hf, hu]

theorem jsJoin_nil (sep : String) : jsJoin sep [] = "" := rfl

theorem jsJoin_empty_cons (a : String) (l : List String) :
    jsJoin "" (a :: l) = a ++ jsJoin "" l := by
  cases l with
  | nil => simp [jsJoin]
  | cons b t =>
    show a ++ "" ++ jsJoin "" (b :: t) = a ++ jsJoin "" (b :: t)
    rw [String.append_empty]

/-- Dropping empty strings before a separator-less join
(`parts.filter(Boolean).join('')`) changes nothing. -/
theorem jsJoin_empty_filter (l : List String) :
    jsJoin "" (l.filter (· ≠ "")) = jsJoin "" l := by
  induction l with
  | nil => rfl
  | cons a t ih =>
    rw [List.filter_cons]
    by_cases ha : a = ""
    · subst ha
      rw [if_neg (by simp)]
      rw [ih, jsJoin_empty_cons, String.empty_append]
    · rw [if_pos (by simp [ha])]
      rw [jsJoin_empty_cons, jsJoin_empty_cons, ih]

theorem append_ne_empty_left (a b : String) (ha : a ≠ "") : a ++ b ≠ "" := by
  intro h
  apply ha
  have hd := congrArg String.data h
  rw [String.data_append] at hd
  exact String.ext (by simp [(List.append_eq_nil.mp hd).1])

/-- C4 (amended): for a stream with a URL, `buildMpvCommand` emits (i)
its own `--user-agent='…'` flag exactly when one of the two literal
keys `User-Agent`/`user-agent` holds a non-empty value (no other
casings are consulted), (ii) a single `--http-header-fields=` flag
listing the remaining headers as comma-separated single-quoted
`Key: Value` pairs, (iii) one `--sub-file='…'` per subtitle with a
non-empty URL, contiguously, in input order, and (iv) the single-quoted
stream URL as the final positional argument — followed by the fixed
trailing flags `--msg-level=…` and `--log-file=mpv-trace.log`, so the
command string ends with the latter, not with the URL. -/
theorem buildMpvCommand_structure :
    ∀ (item : StreamItem) (subs : List SubtitleItem), item.url ≠ "" →
      (∀ ua, mpvUserAgent item.headers = some ua →
        ∃ p q, buildMpvCommand (some item) subs =
          p ++ ("  --user-agent='" ++ shellEscapeSingle ua ++ "' \\\n") ++ q) ∧
      (mpvOtherHeaders item.headers ≠ [] →
        ∃ p q, buildMpvCommand (some item) subs =
          p ++ ("  " ++ ("--http-header-fields=" ++
              jsJoin "," ((mpvOtherHeaders item.headers).map fun kv =>
                "'" ++ shellEscapeSingle kv.1 ++ ": " ++ shellEscapeSingle kv.2 ++ "'")) ++
            " \\\n") ++ q) ∧
      (∃ p q, buildMpvCommand (some item) subs =
        p ++ jsJoin "" ((subs.filter fun s => s.url ≠ "").map fun s =>
          "  --sub-file='" ++ shellEscapeSingle s.url ++ "' \\\n") ++ q) ∧
      (∃ p, buildMpvCommand (some item) subs =
        p ++ ("  '" ++ shellEscapeSingle item.url ++ "' \\\n" ++
          ("  --msg-level=ffmpeg=trace,demuxer=trace,network=trace \\\n" ++
            "  --log-file=mpv-trace.log"))) := by
  intro item subs hu
  have hcmd : buildMpvCommand (some item) subs = jsJoin "" (mpvParts item subs) := by
    show (if item.url = "" then "" else jsJoin "" ((mpvParts item subs).filter (· ≠ ""))) = _
    rw [if_neg hu, jsJoin_empty_filter]
  rw [hcmd]
  refine ⟨?_, ?_, ?_, ?_⟩
  · intro ua hua
    refine ⟨"mpv \\\n" ++ "  --force-window=immediate \\\n" ++ "  --sub-auto=fuzzy \\\n" ++
        "  --demuxer-lavf-o=allowed_extensions=ALL \\\n" ++
        jsJoin "" ((subs.filter fun s => s.url ≠ "").map fun s =>
          "  --sub-file='" ++ shellEscapeSingle s.url ++ "' \\\n"),
      (if buildMpvHeaderOption (mpvOtherHeaders item.headers) ≠ "" then
          "  " ++ buildMpvHeaderOption (mpvOtherHeaders item.headers) ++ " \\\n"
        else "") ++
        "  '" ++ shellEscapeSingle item.url ++ "' \\\n" ++
        "  --msg-level=ffmpeg=trace,demuxer=trace,network=trace \\\n" ++
        "  --log-file=mpv-trace.log", ?_⟩
    simp only [mpvParts, jsJoin_empty_cons, jsJoin_nil, String.append_empty, hua,
      String.append_assoc]
  · intro hne
    have hjoin : buildMpvHeaderOption (mpvOtherHeaders item.headers) =
        "--http-header-fields=" ++
          jsJoin "," ((mpvOtherHeaders item.headers).map fun kv =>
            "'" ++ shellEscapeSingle kv.1 ++ ": " ++ shellEscapeSingle kv.2 ++ "'") := by
      simp [buildMpvHeaderOption, hne]
    have hnz : buildMpvHeaderOption (mpvOtherHeaders item.headers) ≠ "" := by
      rw [hjoin]
      exact append_ne_empty_left _ _ (by decide)
    refine ⟨"mpv \\\n" ++ "  --force-window=immediate \\\n" ++ "  --sub-auto=fuzzy \\\n" ++
        "  --demuxer-lavf-o=allowed_extensions=ALL \\\n" ++
        jsJoin "" ((subs.filter fun s => s.url ≠ "").map fun s =>
          "  --sub-file='" ++ shellEscapeSingle s.url ++ "' \\\n") ++
        (match mpvUserAgent item.headers with
          | some ua => "  --user-agent='" ++ shellEscapeSingle ua ++ "' \\\n"
          | none => ""),
      "  '" ++ shellEscapeSingle item.url ++ "' \\\n" ++
        "  --msg-level=ffmpeg=trace,demuxer=trace,network=trace \\\n" ++
        "  --log-file=mpv-trace.log", ?_⟩
    simp only [mpvParts, jsJoin_empty_cons, jsJoin_nil, String.append_empty]
    rw [if_pos hnz, hjoin]
    simp only [String.append_assoc]
  · refine ⟨"mpv \\\n" ++ "  --force-window=immediate \\\n" ++ "  --sub-auto=fuzzy \\\n" ++
        "  --demuxer-lavf-o=allowed_extensions=ALL \\\n",
      (match mpvUserAgent item.headers with
        | some ua => "  --user-agent='" ++ shellEscapeSingle ua ++ "' \\\n"
        | none => "") ++
        (if buildMpvHeaderOption (mpvOtherHeaders item.headers) ≠ "" then
            "  " ++ buildMpvHeaderOption (mpvOtherHeaders item.headers) ++ " \\\n"
          else "") ++
        "  '" ++ shellEscapeSingle item.url ++ "' \\\n" ++
        "  --msg-level=ffmpeg=trace,demuxer=trace,network=trace \\\n" ++
        "  --log-file=mpv-trace.log", ?_⟩
    simp only [mpvParts, jsJoin_empty_cons, jsJoin_nil, String.append_empty,
      String.append_assoc]
  · refine ⟨"mpv \\\n" ++ "  --force-window=immediate \\\n" ++ "  --sub-auto=fuzzy \\\n" ++
        "  --demuxer-lavf-o=allowed_extensions=ALL \\\n" ++
        jsJoin "" ((subs.filter fun s => s.url ≠ "").map fun s =>
          "  --sub-file='" ++ shellEscapeSingle s.url ++ "' \\\n") ++
        (match mpvUserAgent item.headers with
          | some ua => "  --user-agent='" ++ shellEscapeSingle ua ++ "' \\\n"
          | none => "") ++
        (if buildMpvHeaderOption (mpvOtherHeaders item.headers) ≠ "" then
            "  " ++ buildMpvHeaderOption (mpvOtherHeaders item.headers) ++ " \\\n"
          else ""), ?_⟩
    simp only [mpvParts, jsJoin_empty_cons, jsJoin_nil, String.append_empty,
      String.append_assoc]

set_option maxRecDepth 8192 in
theorem buildMpvCommand_structure_witness :
    ("https://x/s.m3u8" : String) ≠ "" ∧
    (∃ p, buildMpvCommand
        (some ⟨"https://x/s.m3u8", [("User-Agent", "UA/1.0"), ("Referer", "https://x/")]⟩)
        [⟨"https://x/sub.vtt", "", "", "", ""⟩] =
      p ++ ("  '" ++ shellEscapeSingle "https://x/s.m3u8" ++ "' \\\n" ++
        ("  --msg-level=ffmpeg=trace,demuxer=trace,network=trace \\\n" ++
          "  --log-file=mpv-trace.log"))) :=
  ⟨by decide,
   (buildMpvCommand_structure
      ⟨"https://x/s.m3u8", [("User-Agent", "UA/1.0"), ("Referer", "https://x/")]⟩
      [⟨"https://x/sub.vtt", "", "", "", ""⟩] (by decide)).2.2.2⟩

set_option maxRecDepth 8192 in
/-- C4 counterexample: with the case-variant header key `USER-AGENT`
the builder emits no `--user-agent` flag at all — the claimed
case-insensitive separation does not happen — and the produced command
string does not end with the single-quoted stream URL (it ends with the
fixed `--log-file=mpv-trace.log` flag). -/
theorem buildMpvCommand_counterexample :
    listHasSeq "--user-agent".data
      (buildMpvCommand (some ⟨"https://x/s.m3u8", [("USER-AGENT", "UA/1.0")]⟩) []).data
        = false ∧
    List.isSuffixOf "'https://x/s.m3u8'".data
      (buildMpvCommand (some ⟨"https://x/s.m3u8", [("USER-AGENT", "UA/1.0")]⟩) []).data
        = false ∧
    mpvUserAgent [("USER-AGENT", "UA/1.0")] = none := by decide

/-! ## C7 lemmas -/

theorem prefix_ne_of_get? (lit rest flag : String) (i : Nat)
    (hi : i < lit.data.length)
    (hne : lit.data[i]? ≠ flag.data[i]?) : lit ++ rest ≠ flag := by
  intro he
  apply hne
  have h1 : (lit ++ rest).data[i]? = lit.data[i]? := by
    rw [String.data_append]
    exact List.getElem?_append_left hi
  rw [← h1, he]

theorem buildFfmpegHeaders_get1 (hs : List (String × String))
    (h : buildFfmpegHeaders hs ≠ "") :
    (buildFfmpegHeaders hs).data[1]? = some 'h' := by
  by_cases he : hs = []
  · exact absurd (by simp [buildFfmpegHeaders, he]) h
  · have hb : buildFfmpegHeaders hs =
        "-headers '" ++
          (shellEscapeSingle (jsJoin "\r\n" (hs.map fun kv => kv.1 ++ ": " ++ kv.2) ++ "\r\n") ++
            "'") := by
      simp [buildFfmpegHeaders, he, String.append_assoc]
    rw [hb, String.data_append]
    rw [List.getElem?_append_left (by decide)]
    decide

theorem mem_ffmpegSubtitleMetadata_get1 (idx : Nat) (sub : SubtitleItem) (x : String)
    (hx : x ∈ ffmpegSubtitleMetadata idx sub) : x.data[1]? = some 'm' := by
  have key : ∀ tail : String, ("-metadata:s:s:" ++ tail).data[1]? = some 'm' := by
    intro tail
    rw [String.data_append]
    rw [List.getElem?_append_left (by decide)]
    decide
  unfold ffmpegSubtitleMetadata at hx
  rw [List.mem_append] at hx
  rcases hx with h | h <;> (repeat' split at h) <;>
    simp only [List.mem_singleton, List.not_mem_nil] at h <;>
    (subst h; simp only [String.append_assoc]; exact key _)

theorem csFlag_mem_ffmpegParts (item : StreamItem) (subs : List SubtitleItem)
    (fmt : String) (name : Option String) (flag : String)
    (hf0 : flag.data[0]? = some '-')
    (hf1 : flag.data[1]? = some 'c')
    (hf2 : flag.data[2]? = some ':') :
    (flag ∈ ffmpegParts item subs fmt name ↔
      flag ∈ (if (subs.filter fun s => s.url ≠ "").length > 0 then
          (if (if fmt = "mkv" then "mkv" else "mp4") = "mkv" then (["-c:s ass"] : List String)
           else ["-c:s mov_text"])
        else [])) := by
  constructor
  · intro hm
    simp only [ffmpegParts, List.mem_append] at hm
    rcases hm with ((((((((hA | hB) | hC) | hD) | hE) | hF) | hG) | hH) | hI)
    · simp only [List.mem_cons, List.not_mem_nil, or_false] at hA
      rcases hA with rfl | rfl | rfl
      · exact absurd hf0 (by decide)
      · exact absurd hf1 (by decide)
      · exact absurd hf1 (by decide)
    · by_cases hh : buildFfmpegHeaders item.headers ≠ ""
      · rw [if_pos hh, List.mem_singleton] at hB
        subst hB
        have hh1 := buildFfmpegHeaders_get1 item.headers hh
        rw [hh1] at hf1
        exact absurd hf1 (by decide)
      · rw [if_neg hh] at hB
        exact absurd hB (List.not_mem_nil _)
    · rw [List.mem_singleton] at hC
      exact ((prefix_ne_of_get? "-i '" (shellEscapeSingle item.url ++ "'") flag 1
        (by decide) (by rw [hf1]; decide))
        (by rw [hC]; exact (String.append_assoc _ _ _).symm)).elim
    · rcases List.mem_map.mp hD with ⟨sub, _, hsub⟩
      exact ((prefix_ne_of_get? "-i '" (shellEscapeSingle sub.url ++ "'") flag 1
        (by decide) (by rw [hf1]; decide))
        (by rw [← hsub]; exact (String.append_assoc _ _ _).symm)).elim
    · split at hE
      · rw [if_pos rfl, List.mem_append] at hE
        rcases hE with hlit | hmap
        · simp only [List.mem_cons, List.not_mem_nil, or_false] at hlit
          rcases hlit with rfl | rfl
          · exact absurd hf1 (by decide)
          · exact absurd hf1 (by decide)
        · rcases List.mem_map.mp hmap with ⟨i, _, hi⟩
          exact ((prefix_ne_of_get? "-map " (toString (i + 1)) flag 1
            (by decide) (by rw [hf1]; decide)) hi).elim
      · rw [if_neg (by decide), List.mem_append] at hE
        rcases hE with hlit | hmap
        · simp only [List.mem_cons, List.not_mem_nil, or_false] at hlit
          subst hlit
          exact absurd hf1 (by decide)
        · rcases List.mem_map.mp hmap with ⟨i, _, hi⟩
          exact ((prefix_ne_of_get? "-map " (toString (i + 1)) flag 1
            (by decide) (by rw [hf1]; decide)) hi).elim
    · rw [List.mem_singleton] at hF
      subst hF
      exact absurd hf2 (by decide)
    · exact hG
    · rcases List.mem_flatten.mp hH with ⟨l, hl, hfl⟩
      rcases List.mem_map.mp hl with ⟨p, _, rfl⟩
      have hm1 := mem_ffmpegSubtitleMetadata_get1 p.1 p.2 flag hfl
      rw [hm1] at hf1
      exact absurd hf1 (by decide)
    · rw [List.mem_singleton] at hI
      exact ((prefix_ne_of_get? "'"
        (shellEscapeSingle ((if normalizeFilename name ≠ "" then normalizeFilename name
            else "output") ++ "." ++ (if fmt = "mkv" then "mkv" else "mp4")) ++ "'")
        flag 0 (by decide) (by rw [hf0]; decide))
        (by rw [hI]; exact (String.append_assoc _ _ _).symm)).elim
  · intro hg
    simp only [ffmpegParts, List.mem_append]
    exact Or.inl (Or.inl (Or.inr hg))

set_option maxRecDepth 8192 in
/-- C7: for every stream item with a non-empty URL, `buildFfmpegCommand`
joins the space-separated non-empty `parts`; the `parts` always contain
`-c copy`; for `mkv` output they contain `-map 0:v` and `-map 0:a`, for
any other format `-map 0`, plus one `-map {i+1}` for every valid
subtitle index `i`; `-c:s ass` appears iff the format is `mkv` and at
least one subtitle has a non-empty URL, and `-c:s mov_text` iff the
format is not `mkv` and at least one subtitle has a non-empty URL.
The claimed concrete instance (one `en` subtitle, format `mkv`, title
`My Title`) holds as well, including the `-metadata:s:s:0 language=eng`
flag and the command ending in `'My Title.mkv'`. -/
theorem buildFfmpegCommand_container_mapping
    (item : StreamItem) (subs : List SubtitleItem) (fmt : String)
    (name : Option String) (hu : item.url ≠ "") :
    buildFfmpegCommand (some item) subs fmt name =
      jsJoin " " ((ffmpegParts item subs fmt name).filter (· ≠ "")) ∧
    "-c copy" ∈ ffmpegParts item subs fmt name ∧
    (fmt = "mkv" → "-map 0:v" ∈ ffmpegParts item subs fmt name ∧
      "-map 0:a" ∈ ffmpegParts item subs fmt name) ∧
    (fmt ≠ "mkv" → "-map 0" ∈ ffmpegParts item subs fmt name) ∧
    (∀ i, i < (subs.filter fun s => s.url ≠ "").length →
      ("-map " ++ toString (i + 1)) ∈ ffmpegParts item subs fmt name) ∧
    ("-c:s ass" ∈ ffmpegParts item subs fmt name ↔
      fmt = "mkv" ∧ 0 < (subs.filter fun s => s.url ≠ "").length) ∧
    ("-c:s mov_text" ∈ ffmpegParts item subs fmt name ↔
      fmt ≠ "mkv" ∧ 0 < (subs.filter fun s => s.url ≠ "").length) ∧
    ("-map 0:v" ∈ ffmpegParts c7Item c7Subs "mkv" (some "My Title") ∧
      "-map 0:a" ∈ ffmpegParts c7Item c7Subs "mkv" (some "My Title") ∧
      "-map 1" ∈ ffmpegParts c7Item c7Subs "mkv" (some "My Title") ∧
      "-c:s ass" ∈ ffmpegParts c7Item c7Subs "mkv" (some "My Title") ∧
      "-metadata:s:s:0 language=eng" ∈
        ffmpegParts c7Item c7Subs "mkv" (some "My Title") ∧
      List.isSuffixOf "'My Title.mkv'".data
        (buildFfmpegCommand (some c7Item) c7Subs "mkv" (some "My Title")).data
        = true) := by
  refine ⟨?_, ?_, ?_, ?_, ?_, ?_, ?_, ?_⟩
  · simp [buildFfmpegCommand, hu]
  · simp only [ffmpegParts, List.mem_append]
    exact Or.inl (Or.inl (Or.inl (Or.inr (by decide))))
  · intro hf
    have key : ∀ s : String, s ∈ (["-map 0:v", "-map 0:a"] : List String) →
        s ∈ ffmpegParts item subs fmt name := by
      intro s hs
      simp only [ffmpegParts, List.mem_append]
      refine Or.inl (Or.inl (Or.inl (Or.inl (Or.inr ?_))))
      rw [if_pos (by rw [if_pos hf])]
      exact List.mem_append_left _ hs
    exact ⟨key _ (by decide), key _ (by decide)⟩
  · intro hf
    simp only [ffmpegParts, List.mem_append]
    refine Or.inl (Or.inl (Or.inl (Or.inl (Or.inr ?_))))
    rw [if_neg (by rw [if_neg hf]; decide)]
    exact List.mem_append_left _ (by decide)
  · intro i hi
    simp only [ffmpegParts, List.mem_append]
    refine Or.inl (Or.inl (Or.inl (Or.inl (Or.inr ?_))))
    have hm : ("-map " ++ toString (i + 1)) ∈
        (List.range (subs.filter fun s => s.url ≠ "").length).map
          fun j => "-map " ++ toString (j + 1) :=
      List.mem_map.mpr ⟨i, List.mem_range.mpr hi, rfl⟩
    split
    · exact List.mem_append_right _ hm
    · exact List.mem_append_right _ hm
  · rw [csFlag_mem_ffmpegParts item subs fmt name "-c:s ass"
      (by decide) (by decide) (by decide)]
    by_cases hl : 0 < (subs.filter fun s => s.url ≠ "").length
    · rw [if_pos hl]
      by_cases hf : fmt = "mkv"
      · rw [if_pos (by rw [if_pos hf])]
        exact iff_of_true (by decide) ⟨hf, hl⟩
      · rw [if_neg (by rw [if_neg hf]; decide)]
        exact iff_of_false (by decide) fun h => hf h.1
    · rw [if_neg hl]
      exact iff_of_false (List.not_mem_nil _) fun h => hl h.2
  · rw [csFlag_mem_ffmpegParts item subs fmt name "-c:s mov_text"
      (by decide) (by decide) (by decide)]
    by_cases hl : 0 < (subs.filter fun s => s.url ≠ "").length
    · rw [if_pos hl]
      by_cases hf : fmt = "mkv"
      · rw [if_pos (by rw [if_pos hf])]
        exact iff_of_false (by decide) fun h => h.1 hf
      · rw [if_neg (by rw [if_neg hf]; decide)]
        exact iff_of_true (by decide) ⟨hf, hl⟩
    · rw [if_neg hl]
      exact iff_of_false (List.not_mem_nil _) fun h => hl h.2
  · exact ⟨by decide, by decide, by decide, by decide, by decide, by decide⟩

set_option maxRecDepth 8192 in
/-- C7 witness: the worked example satisfies the non-empty-URL
hypothesis and the command equals the joined filtered parts. -/
theorem buildFfmpegCommand_container_mapping_witness :
    c7Item.url ≠ "" ∧
    buildFfmpegCommand (some c7Item) c7Subs "mkv" (some "My Title") =
      jsJoin " "
        ((ffmpegParts c7Item c7Subs "mkv" (some "My Title")).filter (· ≠ "")) :=
  ⟨by decide,
   (buildFfmpegCommand_container_mapping c7Item c7Subs "mkv" (some "My Title")
      (by decide)).1⟩
